import Mathlib

/-!
Verification of the tiled attention backward kernel
(`xformers/csrc/attention/cuda/fmha/kernel_backward.h`,
`AttentionBackwardKernel`) against its natural-language specification.

The embedding works over exact rationals (`ℚ`); the float exponential is an
abstract function parameter `e : ℚ → ℚ`, and the IEEE value `-infinity`
produced by the causal mask is modelled by `Option.none` (see `applyLse`).
Tensors are total functions from indices to `ℚ`; every access the kernel
performs is guarded exactly as in the source.
-/

namespace XFormersFmha

/-- Modelled from the spec: `align_up` (declared in `gemm_kernel_utils.h`,
which is not under `src/`) — "rounded up to tile and alignment boundaries"
(§3): the least multiple of `a` that is `≥ x`. -/
def alignUp (x a : ℕ) : ℕ := (x + a - 1) / a * a

/-- Modelled from the spec: `ceil_div` (declared in `gemm_kernel_utils.h`,
not under `src/`): division rounding up. -/
def ceilDiv (a b : ℕ) : ℕ := (a + b - 1) / b

/-- Modelled from the spec: `cutlass::round_nearest` (external collaborator
library): rounds `x` up to a multiple of `a`; used with `a = 4` because the
dropout generator draws uniform values four at a time. -/
def roundNearest (x a : ℕ) : ℕ := ceilDiv x a * a

/-- Compile-time configuration of `AttentionBackwardKernel`:
`cc` is `ArchTag::kMinComputeCapability`, `inputBits` is
`cutlass::sizeof_bits<scalar_t__>::value` for the input scalar type and
`kMaxKIn` the `kMaxK_` template argument (an upper bound on
`max(value.shape[-1], query.shape[-1])`). -/
structure Config where
  cc : ℕ
  inputBits : ℕ
  kMaxKIn : ℕ

namespace Config

/-- `scalar_t_`: the kernel forces any input type wider than 16 bits to
`cutlass::half_t` (16 bits). -/
def scalarBits (c : Config) : ℕ := if c.inputBits ≤ 16 then c.inputBits else 16

/-- `kMaxK = cutlass::const_min(kMaxK_, 128)`. -/
def kMaxK (c : Config) : ℕ := min c.kMaxKIn 128

/-- `kIsHalf = cutlass::sizeof_bits<scalar_t>::value <= 16`. -/
def kIsHalf (c : Config) : Bool := decide (c.scalarBits ≤ 16)

/-- `kSupports64x128`. -/
def kSupports64x128 (c : Config) : Bool :=
  decide (80 ≤ c.cc) || (decide (70 ≤ c.cc) && decide (c.scalarBits ≤ 16))

/-- `kBlockSizeI`: the query-tile size. -/
def kBlockSizeI (c : Config) : ℕ :=
  if c.kSupports64x128 && decide (64 < c.kMaxK) then 128 else 64

/-- `kOutputInRF`: dK/dV accumulate in registers for the whole pass. -/
def kOutputInRF (c : Config) : Bool :=
  c.kIsHalf && decide (c.kMaxK ≤ c.kBlockSizeI)

/-- `kPreloadMmas`. -/
def kPreloadMmas (c : Config) : Bool :=
  c.kIsHalf && decide (80 ≤ c.cc) && c.kOutputInRF

/-- `kBlockSizeJ`: the key-tile size. -/
def kBlockSizeJ (c : Config) : ℕ :=
  if c.kPreloadMmas && decide (64 < c.kMaxK) then 128 else 64

/-- `kNumWarpsPerBlock = (kBlockSizeI * kBlockSizeJ) / (32 * 32)`. -/
def kNumWarpsPerBlock (c : Config) : ℕ := c.kBlockSizeI * c.kBlockSizeJ / (32 * 32)

/-- `kNumThreads = kWarpSize * kNumWarpsPerBlock`. -/
def kNumThreads (c : Config) : ℕ := 32 * c.kNumWarpsPerBlock

/-- `std::is_same<output_accum_t, output_t>::value`: `output_accum_t` is
`float` (32 bits) and `output_t = scalar_t`, so they coincide exactly when
the scalar type is 32 bits wide. -/
def outputIsAccum (c : Config) : Bool := decide (c.scalarBits = 32)

/-- `kNeedsAccumGradQ = !std::is_same<output_accum_t, output_t>::value`. -/
def kNeedsAccumGradQ (c : Config) : Bool := !c.outputIsAccum

/-- `kNeedsAccumGradK = !kOutputInRF && !std::is_same<...>::value`. -/
def kNeedsAccumGradK (c : Config) : Bool := !c.kOutputInRF && !c.outputIsAccum

/-- `kNeedsAccumGradV = !kOutputInRF && !std::is_same<...>::value`. -/
def kNeedsAccumGradV (c : Config) : Bool := !c.kOutputInRF && !c.outputIsAccum

end Config

/-- Runtime problem descriptor: the dimension/flag fields of
`AttentionBackwardKernel::Params` (plus the presence of `bias_ptr` as
`useBias`; the `kApplyDropout` template flag is passed separately as `dr`
to the definitions that depend on it). -/
structure Dims where
  numBatches : ℕ
  numHeads : ℕ
  numQueries : ℕ
  numKeys : ℕ
  headDim : ℕ
  headDimValue : ℕ
  causal : Bool
  useBias : Bool
  scale : ℚ
  dropoutProb : ℚ

/-- `Params::workspace_elements_gk`. -/
def workspaceElementsGK (c : Config) (p : Dims) : ℕ :=
  if c.kNeedsAccumGradK then
    alignUp p.numKeys c.kBlockSizeJ * alignUp p.headDim c.kBlockSizeI
  else 0

/-- `Params::workspace_elements_gv`. -/
def workspaceElementsGV (c : Config) (p : Dims) : ℕ :=
  if c.kNeedsAccumGradV then
    alignUp p.numKeys c.kBlockSizeJ * alignUp p.headDimValue c.kBlockSizeI
  else 0

/-- `Params::workspace_elements_gq`. -/
def workspaceElementsGQ (c : Config) (p : Dims) : ℕ :=
  if !c.kNeedsAccumGradQ then 0
  else if p.numKeys ≤ c.kBlockSizeJ then 0
  else alignUp p.numQueries c.kBlockSizeI * alignUp p.headDim c.kBlockSizeJ

/-- `Params::workspace_strideBH`: one batch-head slab, 128-bit aligned. -/
def workspaceStrideBH (c : Config) (p : Dims) : ℕ :=
  alignUp (workspaceElementsGK c p + workspaceElementsGV c p + workspaceElementsGQ c p) 4

/-- `Params::workspace_size`: bytes of scratch needed
(`num_batches * num_heads * workspace_strideBH() * sizeof(float)`). -/
def workspaceSize (c : Config) (p : Dims) : ℕ :=
  p.numBatches * p.numHeads * workspaceStrideBH c p * 4

/-- `AttentionBackwardKernel::getQueryStart`. -/
def getQueryStart (c : Config) (p : Dims) (keyStart : ℕ) : ℕ :=
  if p.causal then keyStart / c.kBlockSizeI * c.kBlockSizeI else 0

/-- The per-(batch,head) tensor slice the kernel reads and writes: total
functions from (row, column) — or row, for the vectors — to exact values.
`delta` is the row-delta buffer `delta_ptr`, `lse` the log-normalizer. -/
structure Env where
  query : ℕ → ℕ → ℚ
  key : ℕ → ℕ → ℚ
  value : ℕ → ℕ → ℚ
  bias : ℕ → ℕ → ℚ
  output : ℕ → ℕ → ℚ
  gradOutput : ℕ → ℕ → ℚ
  lse : ℕ → ℚ
  delta : ℕ → ℚ

/-- `num_queries_in_block = min(MatmulQK::Mma::Shape::kN, num_queries - query_start)`
(`processBlockIJ`, bounds-checked path; on the `skipBoundsChecks` path the
scheduler guarantees a full tile, where this `min` equals `kBlockSizeI`). -/
def nQblock (c : Config) (p : Dims) (qs : ℕ) : ℕ :=
  min c.kBlockSizeI (p.numQueries - qs)

/-- `num_keys_in_block = min(MatmulQK::Mma::Shape::kM, num_keys - key_start)`. -/
def nKblock (c : Config) (p : Dims) (ks : ℕ) : ℕ :=
  min c.kBlockSizeJ (p.numKeys - ks)

/-- MatmulQK accumulator before scaling: `attn_T = k_j @ q_i.transpose(-2,-1)`,
entry `(m, n)` for key row `key_start + m` and query row `query_start + n`;
`set_zero_outside_bounds(!skipBoundsChecks)` makes every contribution outside
the clamped tile extents exactly zero. -/
def qkRaw (c : Config) (p : Dims) (env : Env) (qs ks m n : ℕ) : ℚ :=
  if m < nKblock c p ks ∧ n < nQblock c p qs then
    ∑ k in Finset.range p.headDim, env.key (ks + m) k * env.query (qs + n) k
  else 0

/-- `accum = cutlass::multiplies(scale, accum)`. -/
def qkScaled (c : Config) (p : Dims) (env : Env) (qs ks m n : ℕ) : ℚ :=
  p.scale * qkRaw c p env qs ks m n

/-- Bias application: `accum[idx] += bias_tensor_ref.at({accum_n, accum_m})`,
guarded by `skipBoundsChecks || (accum_n < num_queries_in_block && accum_m <
num_keys_in_block)` (the tile is transposed, so the bias element for entry
`(m, n)` lives at `(query_start + n, key_start + m)`). -/
def qkWithBias (c : Config) (p : Dims) (env : Env) (qs ks m n : ℕ) : ℚ :=
  qkScaled c p env qs ks m n +
    (if p.useBias ∧ (n < nQblock c p qs ∧ m < nKblock c p ks) then
      env.bias (qs + n) (ks + m)
    else 0)

/-- Causal mask: `if (accum_m > accum_n + query_start - key_start)
accum[idx] = -infinity` (int arithmetic, hence the cast to `ℤ`); the float
`-infinity` is modelled by `none`. -/
def causalMasked (c : Config) (p : Dims) (env : Env) (qs ks m n : ℕ) : Option ℚ :=
  if p.causal ∧ ((n : ℤ) + qs - ks < m) then none
  else some (qkWithBias c p env qs ks m n)

/-- Modelled from the spec: `MatmulQK::B2bGemm::accumApplyLSEToSmem` (defined
in `mma_from_smem.h`, which is not under `src/`) — "subtract the
log-normalizer for each query row and apply the exponential" (§4.3);
`shmem <- (matmul_result - logsumexp[i_start:i_end].unsqueeze(1)).exp()`.
`none` models a `-infinity` score, and `expf(-infinity) = 0` exactly. -/
def applyLse (e : ℚ → ℚ) : Option ℚ → ℚ → ℚ
  | none, _ => 0
  | some a, l => e (a - l)

/-- The recomputed probability tile `Pij.T` held in shared memory: entry
`(m, n)` is the attention probability of key `key_start + m` for query
`query_start + n`. -/
def probTile (e : ℚ → ℚ) (c : Config) (p : Dims) (env : Env) (qs ks m n : ℕ) : ℚ :=
  applyLse e (causalMasked c p env qs ks m n) (env.lse (qs + n))

/-- Reference probability, written from the spec for comparison (§4.3/§8):
"exp(softmax-scale * (key-tile @ query-tile^T) + bias - log-normalizer[query
row])" for global query row `i` and key row `j`, using the saved
log-normalizer. -/
def refSoftmaxProb (e : ℚ → ℚ) (p : Dims) (env : Env) (i j : ℕ) : ℚ :=
  e (p.scale * (∑ k in Finset.range p.headDim, env.query i k * env.key j k)
      + (if p.useBias then env.bias i j else 0) - env.lse i)

/-- `Params::advance_to_block`: `dropout_batch_head_rng_offset =
batch_id * (num_heads * num_queries * num_keys) + head_id * (num_queries *
num_keys)`. -/
def dropoutBatchHeadRngOffset (p : Dims) (b h : ℕ) : ℕ :=
  b * (p.numHeads * p.numQueries * p.numKeys) + h * (p.numQueries * p.numKeys)

/-- `dropout_scale = 1.0 / (1.0 - p.dropout_prob)`. -/
def dropoutScale (p : Dims) : ℚ := 1 / (1 - p.dropoutProb)

/-- `threads_per_row = fast_min(num_threads / num_queries_in_block,
num_keys_in_block)` (Zij generation in `processBlockIJ`). -/
def zijThreadsPerRow (c : Config) (p : Dims) (qs ks : ℕ) : ℕ :=
  min (c.kNumThreads / nQblock c p qs) (nKblock c p ks)

/-- `elts_per_thread = round_nearest(ceil_div(num_keys_in_block,
threads_per_row), 4)`. -/
def zijEltsPerThread (c : Config) (p : Dims) (qs ks : ℕ) : ℕ :=
  roundNearest (ceilDiv (nKblock c p ks) (zijThreadsPerRow c p qs ks)) 4

/-- One element of the regenerated dropout tile `Zij`, at local query row `i`
and local key column `j` (the tile is stored transposed,
`zij.at({j, i})`). The generating thread owns columns
`[thread_start_j, thread_start_j + elts_per_thread)` of row `i`; it calls
`skipahead((query_start + i) * num_keys + (key_start + thread_start_j))` on a
copy of the per-batch-head generator state and then draws sequentially, so
element `j` reads draw `j - thread_start_j` after the skip. `u` is modelled
from the spec as the counter-based Philox stream of the launch seed:
`u pos` is the uniform draw at absolute stream position `pos`, and
`curand_init(seed, 0, o₀ + base)` followed by `skipahead(n)` and `k`
sequential draws reads position `o₀ + base + n + k`. -/
def zijEntry (u : ℕ → ℚ) (o₀ : ℕ) (c : Config) (p : Dims) (b h qs ks i j : ℕ) : ℚ :=
  let ept := zijEltsPerThread c p qs ks
  let tsj := j / ept * ept
  let pos := o₀ + dropoutBatchHeadRngOffset p b h +
    ((qs + i) * p.numKeys + (ks + tsj)) + (j - tsj)
  dropoutScale p * (if p.dropoutProb < u pos then 1 else 0)

/-- Spec-side stream position of attention-matrix entry (batch `b`, head `h`,
query row `row`, key column `col`):
`b*(heads*Mq*Mk) + h*(Mq*Mk) + row*Mk + col`. -/
def streamPosition (p : Dims) (b h row col : ℕ) : ℕ :=
  b * (p.numHeads * p.numQueries * p.numKeys) + h * (p.numQueries * p.numKeys) +
    row * p.numKeys + col

/-- Spec-side dropout mask value as a function of the seed stream and an
absolute position: keep (scaled by `1/(1-p)`) when the uniform draw exceeds
the dropout probability, else drop. -/
def dropoutMaskAt (u : ℕ → ℚ) (o₀ : ℕ) (p : Dims) (pos : ℕ) : ℚ :=
  dropoutScale p * (if p.dropoutProb < u (o₀ + pos) then 1 else 0)

/-- The factor the dropout mask contributes where probabilities are consumed:
`Zij` under `kApplyDropout`, and `1` on the no-dropout code path. -/
def zijFactor (dr : Bool) (u : ℕ → ℚ) (o₀ : ℕ) (c : Config) (p : Dims) (b h qs ks i j : ℕ) : ℚ :=
  if dr then zijEntry u o₀ c p b h qs ks i j else 1

/-- One summand of the dV matmul `dVj += (Pij.T * Zij) @ dOi`: the
contribution of query row `query_start + i` to output entry
(key row `key_start + j`, value column `cIdx`). -/
def dVterm (e : ℚ → ℚ) (dr : Bool) (u : ℕ → ℚ) (o₀ : ℕ) (c : Config) (p : Dims) (env : Env)
    (b h qs ks i j cIdx : ℕ) : ℚ :=
  probTile e c p env qs ks j i * zijFactor dr u o₀ c p b h qs ks i j *
    env.gradOutput (qs + i) cIdx

/-- The dV tile contribution of one (query-tile, key-tile) iteration:
`problem_size.k() = num_queries_in_block`, so the reduction ranges over the
clamped query extent. -/
def dVcontrib (e : ℚ → ℚ) (dr : Bool) (u : ℕ → ℚ) (o₀ : ℕ) (c : Config) (p : Dims) (env : Env)
    (b h qs ks j cIdx : ℕ) : ℚ :=
  ∑ i in Finset.range (nQblock c p qs), dVterm e dr u o₀ c p env b h qs ks i j cIdx

/-- MatmulDOIVJ: `doi_t_vj = do_i @ v_j.transpose(-2,-1)`, entry
(local query row `q`, local key column `k`). -/
def dPTile (p : Dims) (env : Env) (qs ks q k : ℕ) : ℚ :=
  ∑ cIdx in Finset.range p.headDimValue,
    env.gradOutput (qs + q) cIdx * env.value (ks + k) cIdx

/-- Dropout applied to `dP`: `accum[idx] *= zij.at({accum_n, accum_m})`,
guarded by `skipBoundsChecks || (global_query_idx < num_queries &&
global_key_idx < num_keys)`. -/
def dPDropped (dr : Bool) (u : ℕ → ℚ) (o₀ : ℕ) (c : Config) (p : Dims) (env : Env)
    (b h qs ks q k : ℕ) : ℚ :=
  dPTile p env qs ks q k *
    (if dr ∧ (qs + q < p.numQueries ∧ ks + k < p.numKeys) then
      zijEntry u o₀ c p b h qs ks q k
    else 1)

/-- `loadDi`: the row-delta value staged to shared memory for local query row
`q`; rows outside the problem read exactly `0`. -/
def diLoad (p : Dims) (env : Env) (qs q : ℕ) : ℚ :=
  if qs + q < p.numQueries then env.delta (qs + q) else 0

/-- `fragment_attn[idx] = attn_T.at({accum_n, accum_m})` with the bounds guard
`skipBoundsChecks || (accum_m < num_queries_in_block && accum_n <
num_keys_in_block)`, else `0`: the probability read back for the
score-gradient computation. -/
def attnTRead (e : ℚ → ℚ) (c : Config) (p : Dims) (env : Env) (qs ks q k : ℕ) : ℚ :=
  if q < nQblock c p qs ∧ k < nKblock c p ks then probTile e c p env qs ks k q else 0

/-- `dSij = (dPij - Di) * Pij`: `accum = (accum - fragment_di) * fragment_attn`. -/
def dSTile (e : ℚ → ℚ) (dr : Bool) (u : ℕ → ℚ) (o₀ : ℕ) (c : Config) (p : Dims) (env : Env)
    (b h qs ks q k : ℕ) : ℚ :=
  (dPDropped dr u o₀ c p env b h qs ks q k - diLoad p env qs q) *
    attnTRead e c p env qs ks q k

/-- The value the `BiasGradEpilogue` stores to `grad_bias_ptr` for tile entry
`(q, k)`: the epilogue is a no-op `LinearCombination` with
`ScaleType::Nothing` applied to `accum` right after `dSij = (dPij - Di) * Pij`
and before `accum = accum * scale`. -/
def gradBiasTile (e : ℚ → ℚ) (dr : Bool) (u : ℕ → ℚ) (o₀ : ℕ) (c : Config) (p : Dims) (env : Env)
    (b h qs ks q k : ℕ) : ℚ :=
  dSTile e dr u o₀ c p env b h qs ks q k

/-- `accum = accum * scale` after the bias-gradient store: the score gradient
fed to the dQ and dK matmuls. -/
def dSScaled (e : ℚ → ℚ) (dr : Bool) (u : ℕ → ℚ) (o₀ : ℕ) (c : Config) (p : Dims) (env : Env)
    (b h qs ks q k : ℕ) : ℚ :=
  dSTile e dr u o₀ c p env b h qs ks q k * p.scale

/-- One summand of `grad_q[i_start:i_end] += tmp @ k_j`: the contribution of
key `key_start + k` to dQ entry (query row `query_start + q`, column `cIdx`). -/
def dQterm (e : ℚ → ℚ) (dr : Bool) (u : ℕ → ℚ) (o₀ : ℕ) (c : Config) (p : Dims) (env : Env)
    (b h qs ks q k cIdx : ℕ) : ℚ :=
  dSScaled e dr u o₀ c p env b h qs ks q k * env.key (ks + k) cIdx

/-- The dQ tile contribution of one iteration: `problem_size.k() =
num_keys_in_block`. -/
def dQcontrib (e : ℚ → ℚ) (dr : Bool) (u : ℕ → ℚ) (o₀ : ℕ) (c : Config) (p : Dims) (env : Env)
    (b h qs ks q cIdx : ℕ) : ℚ :=
  ∑ k in Finset.range (nKblock c p ks), dQterm e dr u o₀ c p env b h qs ks q k cIdx

/-- One summand of `grad_k[j_start:j_end] += tmp.transpose(-2,-1) @ q_i`. -/
def dKterm (e : ℚ → ℚ) (dr : Bool) (u : ℕ → ℚ) (o₀ : ℕ) (c : Config) (p : Dims) (env : Env)
    (b h qs ks q k cIdx : ℕ) : ℚ :=
  dSScaled e dr u o₀ c p env b h qs ks q k * env.query (qs + q) cIdx

/-- The dK tile contribution of one iteration: `problem_size.k() =
num_queries_in_block`. -/
def dKcontrib (e : ℚ → ℚ) (dr : Bool) (u : ℕ → ℚ) (o₀ : ℕ) (c : Config) (p : Dims) (env : Env)
    (b h qs ks k cIdx : ℕ) : ℚ :=
  ∑ q in Finset.range (nQblock c p qs), dKterm e dr u o₀ c p env b h qs ks q k cIdx

/-- `kNumThreadsPerLine = kNumThreads / kBlockSizeI` (`computeDelta`). -/
def kNumThreadsPerLine (c : Config) : ℕ := c.kNumThreads / c.kBlockSizeI

/-- `kMaxIters = kMaxK / (kElementsPerAccess * kNumThreadsPerLine)`. -/
def deltaMaxIters (c : Config) (eA : ℕ) : ℕ :=
  c.kMaxK / (eA * kNumThreadsPerLine c)

/-- The global column read by thread slot `part` of a row at pipeline
position `iter`, element `i` of its access: `laneFirstCol +
iter * kElementsPerAccess * kNumThreadsPerLine + i` with
`laneFirstCol = kElementsPerAccess * (lane_id % kNumThreadsPerLine)`. -/
def deltaCol (c : Config) (eA part iter i : ℕ) : ℕ :=
  eA * part + iter * (eA * kNumThreadsPerLine c) + i

/-- The load predicate for pipeline position `iter`: `pred` starts as
`rowPred` and is and-ed with `(first column of the access) < head_dim_value`
at every position up to `iter`; invalid loads are `clear()`ed to zero. -/
def deltaPred (c : Config) (p : Dims) (eA qs row part iter : ℕ) : Prop :=
  qs + row < p.numQueries ∧
    ∀ t ∈ Finset.range (iter + 1), deltaCol c eA part t 0 < p.headDimValue

instance (c : Config) (p : Dims) (eA qs row part iter : ℕ) :
    Decidable (deltaPred c p eA qs row part iter) := by
  unfold deltaPred; infer_instance

/-- `delta_value` accumulated by the thread at row slot `part`: the pipelined
`columnIteration` loop, with cleared (zero) fragments where the predicate has
gone false. -/
def deltaThreadSum (c : Config) (p : Dims) (env : Env) (eA qs row part : ℕ) : ℚ :=
  ∑ iter in Finset.range (deltaMaxIters c eA),
    if deltaPred c p eA qs row part iter then
      ∑ i in Finset.range eA,
        env.output (qs + row) (deltaCol c eA part iter i) *
          env.gradOutput (qs + row) (deltaCol c eA part iter i)
    else 0

/-- The value `computeDelta` stores to `delta_ptr[query_start + laneRow]`:
the thread's own partial sum combined with the `__shfl_xor_sync` cross-lane
reduction over the `kNumThreadsPerLine` threads sharing the row. -/
def deltaRowValue (c : Config) (p : Dims) (env : Env) (eA qs row : ℕ) : ℚ :=
  ∑ part in Finset.range (kNumThreadsPerLine c), deltaThreadSum c p env eA qs row part

/-- The base addresses and strides `check_supported` inspects (byte addresses
modelled as naturals). -/
structure LaunchAddrs where
  queryAddr : ℕ
  keyAddr : ℕ
  valueAddr : ℕ
  outputAddr : ℕ
  gradOutputAddr : ℕ
  lseStrideM : ℕ
  qStrideH : ℕ
  kStrideH : ℕ
  vStrideH : ℕ

/-- `AttentionBackwardKernel::check_supported`. Modelled from the spec for
the bodies of `CHECK_ALIGNED_PTR` / `XFORMERS_CHECK` (declared in
`gemm_kernel_utils.h`, which is not under `src/`): a failed condition
"fails the launch with a descriptive precondition error" (§6), modelled as
`Except.error` carrying the message; `minAlign` is
`GemmType::kMinimumAlignment`. The conditions and their order are those of
`check_supported` in `kernel_backward.h`. -/
def checkSupported (minAlign : ℕ) (a : LaunchAddrs) : Except String Unit :=
  if a.queryAddr % minAlign ≠ 0 then .error "query pointer is not correctly aligned"
  else if a.keyAddr % minAlign ≠ 0 then .error "key pointer is not correctly aligned"
  else if a.valueAddr % minAlign ≠ 0 then .error "value pointer is not correctly aligned"
  else if a.outputAddr % minAlign ≠ 0 then .error "output pointer is not correctly aligned"
  else if a.gradOutputAddr % minAlign ≠ 0 then .error "grad_output pointer is not correctly aligned"
  else if a.lseStrideM % 8 ≠ 0 then .error "LSE is not correctly aligned"
  else if a.qStrideH % minAlign ≠ 0 then .error "query is not correctly aligned"
  else if a.kStrideH % minAlign ≠ 0 then .error "key is not correctly aligned"
  else if a.vStrideH % minAlign ≠ 0 then .error "value is not correctly aligned"
  else .ok ()

/-- A concrete compile-time configuration (Sm80, half precision, `kMaxK_` =
64), used by the witnesses. -/
def cfgW : Config := ⟨80, 16, 64⟩

/-- A concrete one-element problem used by the witnesses: batch 1, head 1,
1 query, 1 key, head dims 1, non-causal, bias present,
softmax scale 2, dropout probability 0. -/
def dimsW : Dims :=
  ⟨1, 1, 1, 1, 1, 1, false, true, 2, 0⟩

/-- A concrete causal problem used by the witnesses. -/
def dimsCausalW : Dims :=
  ⟨1, 1, 200, 200, 1, 1, true, false, 1, 0⟩

/-- A concrete slice whose tensors are constant one (bias and statistics
zero), used by the witnesses. -/
def envW : Env :=
  ⟨fun _ _ => 1, fun _ _ => 1, fun _ _ => 1, fun _ _ => 0,
    fun _ _ => 1, fun _ _ => 1, fun _ => 0, fun _ => 0⟩

/-- A concrete stand-in for the exponential, used by the witnesses. -/
def eW : ℚ → ℚ := fun x => x + 1

/-- A concrete stand-in for the uniform Philox stream, used by the
witnesses. -/
def uW : ℕ → ℚ := fun _ => 1 / 2

/-- A matrix that holds `v` at the single in-range position (0,0) of the
one-element witness problem and `w` everywhere past the declared bounds. -/
def inW (v w : ℚ) : ℕ → ℕ → ℚ := fun i k => if i = 0 ∧ k = 0 then v else w

/-- A slice that agrees with `envW` on every in-range index of `dimsW` but
holds garbage (99) at every position past the declared problem dimensions;
used to witness that out-of-range data never influences the gradients. -/
def envW2 : Env :=
  ⟨inW 1 99, inW 1 99, inW 1 99, inW 0 99, inW 1 99, inW 1 99,
    fun i => if i = 0 then 0 else 99, fun i => if i = 0 then 0 else 99⟩

lemma kBlockSizeI_pos (c : Config) : 0 < c.kBlockSizeI := by
  unfold Config.kBlockSizeI; split <;> norm_num

lemma scalarBits_le (c : Config) : c.scalarBits ≤ 16 := by
  unfold Config.scalarBits; split <;> omega

lemma kIsHalf_true (c : Config) : c.kIsHalf = true := by
  simp [Config.kIsHalf, scalarBits_le]

lemma outputIsAccum_false (c : Config) : c.outputIsAccum = false := by
  have := scalarBits_le c
  simp [Config.outputIsAccum]; omega

lemma alignUp_zero (a : ℕ) : alignUp 0 a = 0 := by
  unfold alignUp
  rcases Nat.eq_zero_or_pos a with h | h
  · simp [h]
  · rw [Nat.div_eq_of_lt (by omega)]; simp

/-- C4: for every problem descriptor, `workspace_size` equals batch-count ×
head-count × per-batch-head slab element count × element size (4 bytes); the
dQ spill area has zero elements whenever `num_keys ≤ kBlockSizeJ`;
`workspace_size` is 0 when the head dimensions fit one output tile
(`kMaxK ≤ kBlockSizeI`, the output-in-registers condition) and the key length
fits a single key-tile; and otherwise it grows linearly with the
batch × head count. -/
theorem workspace_size_spec (c : Config) (p : Dims) :
    workspaceSize c p = p.numBatches * p.numHeads * (workspaceStrideBH c p * 4)
    ∧ (p.numKeys ≤ c.kBlockSizeJ → workspaceElementsGQ c p = 0)
    ∧ (p.headDim ≤ c.kMaxK → p.headDimValue ≤ c.kMaxK → c.kMaxK ≤ c.kBlockSizeI →
        p.numKeys ≤ c.kBlockSizeJ → workspaceSize c p = 0)
    ∧ workspaceSize c p
        = p.numBatches * p.numHeads *
            workspaceSize c { p with numBatches := 1, numHeads := 1 } := by
  refine ⟨by unfold workspaceSize; ring, ?_, ?_, ?_⟩
  · intro h
    unfold workspaceElementsGQ
    split
    · rfl
    · simp [h]
  · intro _ _ h3 h4
    have hrf : c.kOutputInRF = true := by
      simp [Config.kOutputInRF, kIsHalf_true, h3]
    have hk : c.kNeedsAccumGradK = false := by
      simp [Config.kNeedsAccumGradK, hrf]
    have hv : c.kNeedsAccumGradV = false := by
      simp [Config.kNeedsAccumGradV, hrf]
    have hgq : workspaceElementsGQ c p = 0 := by
      unfold workspaceElementsGQ
      split
      · rfl
      · simp [h4]
    unfold workspaceSize workspaceStrideBH workspaceElementsGK workspaceElementsGV
    rw [hk, hv, hgq]
    simp [alignUp_zero]
  · unfold workspaceSize
    have : workspaceStrideBH c { p with numBatches := 1, numHeads := 1 }
        = workspaceStrideBH c p := rfl
    rw [this]; ring

/-- C4 witness: at the concrete configuration `cfgW` and problem `dimsW`
the head dimensions fit one tile and the key length fits one key-tile, and
the computed workspace size is 0. -/
theorem workspace_size_witness :
    dimsW.headDim ≤ cfgW.kMaxK ∧ dimsW.headDimValue ≤ cfgW.kMaxK ∧
      cfgW.kMaxK ≤ cfgW.kBlockSizeI ∧ dimsW.numKeys ≤ cfgW.kBlockSizeJ ∧
      workspaceSize cfgW dimsW = 0 :=
  ⟨by decide, by decide, by decide, by decide,
    (workspace_size_spec cfgW dimsW).2.2.1 (by decide) (by decide) (by decide) (by decide)⟩

/-- C8: `getQueryStart` returns 0 when the causal flag is off; when it is on
it returns the largest multiple of the query-tile size `kBlockSizeI` not
exceeding the key-tile start, and every query tile below that start is
entirely masked out (each of its entries has global key index strictly
greater than global query index). -/
theorem query_start_schedule (c : Config) (p : Dims) (ks : ℕ) :
    (p.causal = false → getQueryStart c p ks = 0)
    ∧ (p.causal = true →
        c.kBlockSizeI ∣ getQueryStart c p ks
        ∧ getQueryStart c p ks ≤ ks
        ∧ (∀ m, c.kBlockSizeI ∣ m → m ≤ ks → m ≤ getQueryStart c p ks))
    ∧ (p.causal = true → ∀ qs, c.kBlockSizeI ∣ qs → qs < getQueryStart c p ks →
        ∀ i j, i < c.kBlockSizeI → qs + i < ks + j) := by
  have hI := kBlockSizeI_pos c
  refine ⟨fun h => by simp [getQueryStart, h], fun h => ?_, fun h => ?_⟩
  · rw [getQueryStart, if_pos h]
    refine ⟨⟨ks / c.kBlockSizeI, Nat.mul_comm _ _⟩, Nat.div_mul_le_self ks _,
      fun m hm hle => ?_⟩
    obtain ⟨t, rfl⟩ := hm
    have ht : t ≤ ks / c.kBlockSizeI := by
      rw [Nat.le_div_iff_mul_le hI, Nat.mul_comm]
      exact hle
    have h2 : t * c.kBlockSizeI ≤ ks / c.kBlockSizeI * c.kBlockSizeI :=
      Nat.mul_le_mul_right _ ht
    rw [Nat.mul_comm c.kBlockSizeI t]
    exact h2
  · intro qs hdvd hlt i j hi
    rw [getQueryStart, if_pos h] at hlt
    obtain ⟨t, rfl⟩ := hdvd
    have ht : t + 1 ≤ ks / c.kBlockSizeI := by
      by_contra hcon
      have h2 : ks / c.kBlockSizeI * c.kBlockSizeI ≤ t * c.kBlockSizeI :=
        Nat.mul_le_mul_right _ (by omega)
      rw [Nat.mul_comm t c.kBlockSizeI] at h2
      omega
    have e1 : (t + 1) * c.kBlockSizeI ≤ ks / c.kBlockSizeI * c.kBlockSizeI :=
      Nat.mul_le_mul_right _ ht
    have e2 : ks / c.kBlockSizeI * c.kBlockSizeI ≤ ks := Nat.div_mul_le_self ks _
    have e3 : c.kBlockSizeI * t + c.kBlockSizeI = (t + 1) * c.kBlockSizeI := by ring
    linarith

/-- C8 witness: with the causal flag on, `kBlockSizeI = 64` and key-tile
start 130, the scheduler starts at query tile 128; the skipped tile at 64 is
entirely masked: its last row 127 is strictly below every key index. -/
theorem query_start_schedule_witness :
    dimsCausalW.causal = true ∧ (64 : ℕ) ∣ 64 ∧ 64 < getQueryStart cfgW dimsCausalW 130 ∧
      (64 : ℕ) + 63 < 130 + 0 :=
  ⟨by decide, by decide, by decide,
    (query_start_schedule cfgW dimsCausalW 130).2.2 (by decide) 64 (by decide) (by decide)
      63 0 (by decide)⟩

/-- C9: `check_supported` succeeds exactly when the five base pointers meet
the minimum byte alignment, the log-normalizer stride is a multiple of 8
elements, and the per-head strides of query/key/value are multiples of the
minimum alignment; otherwise it rejects with a descriptive error. -/
theorem check_supported_iff (m : ℕ) (a : LaunchAddrs) :
    checkSupported m a = .ok () ↔
      (a.queryAddr % m = 0 ∧ a.keyAddr % m = 0 ∧ a.valueAddr % m = 0 ∧
        a.outputAddr % m = 0 ∧ a.gradOutputAddr % m = 0 ∧
        a.lseStrideM % 8 = 0 ∧ a.qStrideH % m = 0 ∧ a.kStrideH % m = 0 ∧
        a.vStrideH % m = 0) := by
  unfold checkSupported
  split_ifs <;> simp_all

/-- C9 witness: a fully aligned parameter set passes `check_supported`, and
flipping the log-normalizer stride to a non-multiple of 8 rejects it. -/
theorem check_supported_witness :
    checkSupported 4 ⟨0, 4, 8, 12, 16, 8, 4, 8, 12⟩ = .ok () ∧
      checkSupported 4 ⟨0, 4, 8, 12, 16, 9, 4, 8, 12⟩ ≠ .ok () :=
  ⟨(check_supported_iff 4 _).mpr (by decide),
    fun h => by simpa using ((check_supported_iff 4 _).mp h).2.2.2.2.2.1⟩

lemma applyLse_some (e : ℚ → ℚ) (a l : ℚ) : applyLse e (some a) l = e (a - l) := rfl

lemma applyLse_none (e : ℚ → ℚ) (l : ℚ) : applyLse e none l = 0 := rfl

/-- C1: the probability tile reconstructed by the kernel equals, entrywise,
exp(softmax-scale × (key-tile @ query-tile^T) + bias − log-normalizer[query
row]) — for every non-causal input the recomputation from query, key, the
optional bias and the saved log-normalizer reproduces the reference softmax
probabilities of the same raw scores. -/
theorem probability_recompute_matches_reference (e : ℚ → ℚ) (c : Config) (p : Dims)
    (env : Env) (qs ks m n : ℕ) (hc : p.causal = false)
    (hm : m < nKblock c p ks) (hn : n < nQblock c p qs) :
    probTile e c p env qs ks m n = refSoftmaxProb e p env (qs + n) (ks + m) := by
  have hsum : (∑ k in Finset.range p.headDim, env.key (ks + m) k * env.query (qs + n) k)
      = ∑ k in Finset.range p.headDim, env.query (qs + n) k * env.key (ks + m) k :=
    Finset.sum_congr rfl fun k _ => mul_comm _ _
  unfold probTile causalMasked
  rw [if_neg (by simp [hc]), applyLse_some]
  unfold refSoftmaxProb qkWithBias qkScaled qkRaw
  rw [if_pos ⟨hm, hn⟩, hsum]
  congr 2
  simp [hn, hm]

/-- C1 witness: the one-element non-causal problem `dimsW`, where both sides
evaluate concretely. -/
theorem probability_recompute_witness :
    dimsW.causal = false ∧ (0 : ℕ) < nKblock cfgW dimsW 0 ∧ (0 : ℕ) < nQblock cfgW dimsW 0 ∧
      probTile eW cfgW dimsW envW 0 0 0 0 = refSoftmaxProb eW dimsW envW 0 0 :=
  ⟨rfl, by decide, by decide,
    probability_recompute_matches_reference eW cfgW dimsW envW 0 0 0 0 rfl
      (by decide) (by decide)⟩

/-- C2: with the causal flag set, an entry whose global key index
`key_start + m` exceeds its global query index `query_start + n` is masked to
`-infinity` before the exponential, so its recomputed probability is exactly
0 and the (query,key) pair's summand in each of the dV, dQ and dK matmuls —
and the whole score gradient `dSij` — is exactly 0. -/
theorem causal_mask_zeroes (e : ℚ → ℚ) (dr : Bool) (u : ℕ → ℚ) (o₀ : ℕ) (c : Config)
    (p : Dims) (env : Env) (b h qs ks m n cIdx : ℕ)
    (hc : p.causal = true) (hmask : qs + n < ks + m) :
    probTile e c p env qs ks m n = 0
    ∧ dVterm e dr u o₀ c p env b h qs ks n m cIdx = 0
    ∧ dSTile e dr u o₀ c p env b h qs ks n m = 0
    ∧ dQterm e dr u o₀ c p env b h qs ks n m cIdx = 0
    ∧ dKterm e dr u o₀ c p env b h qs ks n m cIdx = 0 := by
  have hcond : (p.causal : Prop) ∧ ((n : ℤ) + qs - ks < m) := by
    refine ⟨by simp [hc], ?_⟩
    have : (qs : ℤ) + n < ks + m := by exact_mod_cast hmask
    omega
  have hp : probTile e c p env qs ks m n = 0 := by
    unfold probTile causalMasked
    rw [if_pos hcond, applyLse_none]
  have hattn : attnTRead e c p env qs ks n m = 0 := by
    unfold attnTRead
    split
    · exact hp
    · rfl
  have hds : dSTile e dr u o₀ c p env b h qs ks n m = 0 := by
    unfold dSTile
    rw [hattn, mul_zero]
  refine ⟨hp, ?_, hds, ?_, ?_⟩
  · unfold dVterm
    rw [hp, zero_mul, zero_mul]
  · unfold dQterm dSScaled
    rw [hds, zero_mul, zero_mul]
  · unfold dKterm dSScaled
    rw [hds, zero_mul, zero_mul]

/-- C2 witness: in the causal problem `dimsCausalW`, the pair (query 0,
key 1) has zero probability and zero dV summand. -/
theorem causal_mask_witness :
    dimsCausalW.causal = true ∧ (0 : ℕ) + 0 < 0 + 1 ∧
      probTile eW cfgW dimsCausalW envW 0 0 1 0 = 0 ∧
      dVterm eW false uW 0 cfgW dimsCausalW envW 0 0 0 0 0 1 0 = 0 :=
  ⟨rfl, by decide,
    (causal_mask_zeroes eW false uW 0 cfgW dimsCausalW envW 0 0 0 0 1 0 0 rfl (by decide)).1,
    (causal_mask_zeroes eW false uW 0 cfgW dimsCausalW envW 0 0 0 0 1 0 0 rfl (by decide)).2.1⟩

/-- C3 counterexample: the claim states the tile written to the bias-gradient
output equals Probability × (dProbability − Delta) × softmax-scale, but the
kernel stores `accum` to `grad_bias_ptr` *before* `accum = accum * scale`;
at the concrete input below (softmax scale 2) the stored value is 3 while
the claimed value is 6. -/
theorem grad_bias_scale_counterexample :
    gradBiasTile eW false uW 0 cfgW dimsW envW 0 0 0 0 0 0 ≠
      probTile eW cfgW dimsW envW 0 0 0 0 *
        (dPDropped false uW 0 cfgW dimsW envW 0 0 0 0 0 0 - diLoad dimsW envW 0 0) *
        dimsW.scale := by
  norm_num [gradBiasTile, dSTile, dPDropped, dPTile, diLoad, attnTRead, probTile,
    causalMasked, applyLse, qkWithBias, qkScaled, qkRaw, nQblock, nKblock,
    Config.kBlockSizeI, Config.kBlockSizeJ, Config.kPreloadMmas, Config.kOutputInRF,
    Config.kIsHalf, Config.kSupports64x128, Config.kMaxK, Config.scalarBits,
    dimsW, envW, eW, uW, cfgW]

/-- C3 (amended): the tile written to the bias-gradient output equals
Probability × (dProbability − Delta) — the score gradient *without* the
softmax-scale factor, which the kernel multiplies in only afterwards for the
dQ/dK matmuls. -/
theorem grad_bias_unscaled (e : ℚ → ℚ) (dr : Bool) (u : ℕ → ℚ) (o₀ : ℕ) (c : Config)
    (p : Dims) (env : Env) (b h qs ks q k : ℕ)
    (hq : q < nQblock c p qs) (hk : k < nKblock c p ks) :
    gradBiasTile e dr u o₀ c p env b h qs ks q k
      = probTile e c p env qs ks k q *
          (dPDropped dr u o₀ c p env b h qs ks q k - diLoad p env qs q) := by
  unfold gradBiasTile dSTile attnTRead
  rw [if_pos ⟨hq, hk⟩]
  ring

/-- C3 witness: the amended equation at the concrete one-element input. -/
theorem grad_bias_unscaled_witness :
    (0 : ℕ) < nQblock cfgW dimsW 0 ∧ (0 : ℕ) < nKblock cfgW dimsW 0 ∧
      gradBiasTile eW false uW 0 cfgW dimsW envW 0 0 0 0 0 0
        = probTile eW cfgW dimsW envW 0 0 0 0 *
            (dPDropped false uW 0 cfgW dimsW envW 0 0 0 0 0 0 - diLoad dimsW envW 0 0) :=
  ⟨by decide, by decide,
    grad_bias_unscaled eW false uW 0 cfgW dimsW envW 0 0 0 0 0 0 (by decide) (by decide)⟩

lemma zijEntry_eq_maskAt (u : ℕ → ℚ) (o₀ : ℕ) (c : Config) (p : Dims)
    (b h qs ks i j : ℕ) :
    zijEntry u o₀ c p b h qs ks i j
      = dropoutMaskAt u o₀ p (streamPosition p b h (qs + i) (ks + j)) := by
  have htsj : j / zijEltsPerThread c p qs ks * zijEltsPerThread c p qs ks ≤ j :=
    Nat.div_mul_le_self _ _
  have hpos : o₀ + dropoutBatchHeadRngOffset p b h +
      ((qs + i) * p.numKeys + (ks + j / zijEltsPerThread c p qs ks * zijEltsPerThread c p qs ks)) +
      (j - j / zijEltsPerThread c p qs ks * zijEltsPerThread c p qs ks)
      = o₀ + streamPosition p b h (qs + i) (ks + j) := by
    unfold streamPosition dropoutBatchHeadRngOffset
    omega
  simp only [zijEntry, dropoutMaskAt]
  rw [hpos]

/-- C5: the dropout mask element at tile-local coordinates `(i, j)` of the
tile at `(query_start, key_start)` for batch `b`, head `h` is the value of
the counter-based stream at position
`b*(heads*Mq*Mk) + h*(Mq*Mk) + (global query row)*Mk + (global key column)`
past the seed offset — the per-batch-head base offset plus the row-local
skipahead — and any two generation sites with the same stream position (in
particular, any re-run with the same seed, offset and tile coordinates)
produce the identical mask value. -/
theorem dropout_stream_position (u : ℕ → ℚ) (o₀ : ℕ) (c : Config) (p : Dims)
    (b h qs ks i j : ℕ) (_hi : i < nQblock c p qs) (_hj : j < nKblock c p ks) :
    zijEntry u o₀ c p b h qs ks i j
      = dropoutMaskAt u o₀ p (streamPosition p b h (qs + i) (ks + j))
    ∧ ∀ b' h' qs' ks' i' j',
        streamPosition p b h (qs + i) (ks + j)
          = streamPosition p b' h' (qs' + i') (ks' + j') →
        zijEntry u o₀ c p b h qs ks i j = zijEntry u o₀ c p b' h' qs' ks' i' j' := by
  refine ⟨zijEntry_eq_maskAt u o₀ c p b h qs ks i j, fun b' h' qs' ks' i' j' hpos => ?_⟩
  rw [zijEntry_eq_maskAt, zijEntry_eq_maskAt, hpos]

/-- C5 witness: at the concrete problem, element (0,0) of the tile at the
origin for batch 0, head 0 equals the stream value at position 0, and the
re-run with identical coordinates regenerates it. -/
theorem dropout_stream_position_witness :
    (0 : ℕ) < nQblock cfgW dimsW 0 ∧ (0 : ℕ) < nKblock cfgW dimsW 0 ∧
      zijEntry uW 0 cfgW dimsW 0 0 0 0 0 0
        = dropoutMaskAt uW 0 dimsW (streamPosition dimsW 0 0 0 0) ∧
      zijEntry uW 0 cfgW dimsW 0 0 0 0 0 0 = zijEntry uW 0 cfgW dimsW 0 0 0 0 0 0 :=
  ⟨by decide, by decide,
    (dropout_stream_position uW 0 cfgW dimsW 0 0 0 0 0 0 (by decide) (by decide)).1,
    (dropout_stream_position uW 0 cfgW dimsW 0 0 0 0 0 0 (by decide) (by decide)).2
      0 0 0 0 0 0 rfl⟩

/-- C6: every generated dropout-mask element is 0 or `1/(1-p)` (`u` draws in
`(0, 1]`, the range of `curand_uniform`); with dropout probability 0 every
element equals 1, and the dropout code path (`kApplyDropout = true`) then
produces exactly the same dV tile contribution and scaled score gradient as
the no-dropout path. -/
theorem dropout_mask_values (e : ℚ → ℚ) (u : ℕ → ℚ) (o₀ : ℕ) (c : Config) (p : Dims)
    (env : Env) (b h qs ks i j : ℕ) (hu : ∀ pos, 0 < u pos ∧ u pos ≤ 1) :
    (zijEntry u o₀ c p b h qs ks i j = 0 ∨
      zijEntry u o₀ c p b h qs ks i j = 1 / (1 - p.dropoutProb))
    ∧ (p.dropoutProb = 0 →
        zijEntry u o₀ c p b h qs ks i j = 1
        ∧ (∀ j₂ cIdx, dVcontrib e true u o₀ c p env b h qs ks j₂ cIdx
            = dVcontrib e false u o₀ c p env b h qs ks j₂ cIdx)
        ∧ (∀ q k, dSScaled e true u o₀ c p env b h qs ks q k
            = dSScaled e false u o₀ c p env b h qs ks q k)) := by
  have hone : p.dropoutProb = 0 → ∀ i₂ j₂, zijEntry u o₀ c p b h qs ks i₂ j₂ = 1 := by
    intro hpd i₂ j₂
    simp only [zijEntry, dropoutScale, hpd]
    rw [if_pos (hu _).1]
    norm_num
  refine ⟨?_, fun hpd => ⟨hone hpd i j, fun j₂ cIdx => ?_, fun q k => ?_⟩⟩
  · simp only [zijEntry, dropoutScale]
    split
    · right; rw [mul_one]
    · left; rw [mul_zero]
  · unfold dVcontrib
    refine Finset.sum_congr rfl fun i₂ _ => ?_
    unfold dVterm zijFactor
    rw [if_pos rfl, if_neg (by simp), hone hpd]
  · unfold dSScaled dSTile dPDropped
    congr 2
    by_cases hb : qs + q < p.numQueries ∧ ks + k < p.numKeys
    · rw [if_pos ⟨rfl, hb⟩, if_neg (by simp), hone hpd]
    · rw [if_neg (by simp [hb]), if_neg (by simp)]

/-- C6 witness: with the concrete draw stream `uW` (constant 1/2 ∈ (0,1]) and
dropout probability 0, the mask element is 1 and the dropout path's dV
contribution agrees with the no-dropout path. -/
theorem dropout_mask_values_witness :
    (∀ pos, 0 < uW pos ∧ uW pos ≤ 1) ∧ dimsW.dropoutProb = 0 ∧
      zijEntry uW 0 cfgW dimsW 0 0 0 0 0 0 = 1 ∧
      dVcontrib eW true uW 0 cfgW dimsW envW 0 0 0 0 0 0
        = dVcontrib eW false uW 0 cfgW dimsW envW 0 0 0 0 0 0 :=
  ⟨fun pos => ⟨by norm_num [uW], by norm_num [uW]⟩, rfl,
    ((dropout_mask_values eW uW 0 cfgW dimsW envW 0 0 0 0 0 0
      fun pos => ⟨by norm_num [uW], by norm_num [uW]⟩).2 rfl).1,
    ((dropout_mask_values eW uW 0 cfgW dimsW envW 0 0 0 0 0 0
      fun pos => ⟨by norm_num [uW], by norm_num [uW]⟩).2 rfl).2.1 0 0⟩

lemma sum_range_mul (f : ℕ → ℚ) (m n : ℕ) :
    ∑ k in Finset.range (m * n), f k
      = ∑ b in Finset.range n, ∑ a in Finset.range m, f (b * m + a) := by
  induction n with
  | zero => simp
  | succ n ih =>
    rw [Nat.mul_succ, Finset.sum_range_add, ih, Finset.sum_range_succ]
    congr 1
    exact Finset.sum_congr rfl fun a _ => by rw [Nat.mul_comm]

lemma deltaPred_iff (c : Config) (p : Dims) (eA qs row part iter : ℕ) :
    deltaPred c p eA qs row part iter ↔
      qs + row < p.numQueries ∧ deltaCol c eA part iter 0 < p.headDimValue := by
  unfold deltaPred
  constructor
  · rintro ⟨h1, h2⟩
    exact ⟨h1, h2 iter (Finset.mem_range.mpr (by omega))⟩
  · rintro ⟨h1, h2⟩
    refine ⟨h1, fun t ht => ?_⟩
    have htle : t ≤ iter := by
      have := Finset.mem_range.mp ht
      omega
    have hmono : t * (eA * kNumThreadsPerLine c) ≤ iter * (eA * kNumThreadsPerLine c) :=
      Nat.mul_le_mul_right _ htle
    unfold deltaCol at h2 ⊢
    omega

/-- C7: for every in-bounds query row, the value `computeDelta` stores to the
row-delta buffer — the pipelined per-thread partial sums combined by the
cross-lane reduction over the threads sharing the row — equals the sum over
the value head-dim of output × output-gradient for that row. The hypotheses
are the kernel's own preconditions: the access width divides
`head_dim_value` (the kernel dispatches to `kElementsPerAccess = 1`
otherwise) and the unrolled iteration count covers the head dimension. -/
theorem compute_delta_row_sum (c : Config) (p : Dims) (env : Env) (eA qs row : ℕ)
    (heA : 0 < eA) (hdvd : eA ∣ p.headDimValue)
    (hcov : p.headDimValue ≤ eA * kNumThreadsPerLine c * deltaMaxIters c eA)
    (hrow : qs + row < p.numQueries) :
    deltaRowValue c p env eA qs row
      = ∑ cIdx in Finset.range p.headDimValue,
          env.output (qs + row) cIdx * env.gradOutput (qs + row) cIdx := by
  set tpl := kNumThreadsPerLine c with htpl
  set numIters := deltaMaxIters c eA with hni
  set g : ℕ → ℚ := fun cIdx => env.output (qs + row) cIdx * env.gradOutput (qs + row) cIdx
    with hg
  set F : ℕ → ℚ := fun q₂ =>
    if eA * q₂ < p.headDimValue then ∑ i in Finset.range eA, g (eA * q₂ + i) else 0 with hF
  obtain ⟨D, hD⟩ := hdvd
  have hstep : deltaRowValue c p env eA qs row
      = ∑ part in Finset.range tpl, ∑ iter in Finset.range numIters,
          F (iter * tpl + part) := by
    unfold deltaRowValue deltaThreadSum
    refine Finset.sum_congr rfl fun part _ => Finset.sum_congr rfl fun iter _ => ?_
    have hcol : ∀ i, deltaCol c eA part iter i = eA * (iter * tpl + part) + i := by
      intro i
      unfold deltaCol
      rw [← htpl]
      ring
    rw [hF]
    by_cases hcond : eA * (iter * tpl + part) < p.headDimValue
    · rw [if_pos ((deltaPred_iff c p eA qs row part iter).mpr
        ⟨hrow, by rw [hcol 0]; omega⟩)]
      simp only [if_pos hcond]
      exact Finset.sum_congr rfl fun i _ => by rw [hcol i, hg]
    · have hnp : ¬ deltaPred c p eA qs row part iter := by
        intro hpred
        have h2 := ((deltaPred_iff c p eA qs row part iter).mp hpred).2
        rw [hcol 0] at h2
        omega
      rw [if_neg hnp]
      simp only [if_neg hcond]
  rw [hstep, Finset.sum_comm, ← sum_range_mul F tpl numIters]
  have hDle : D ≤ tpl * numIters := by
    have h2 : eA * D ≤ eA * (tpl * numIters) := by
      calc eA * D = p.headDimValue := hD.symm
        _ ≤ eA * tpl * numIters := hcov
        _ = eA * (tpl * numIters) := by ring
    exact Nat.le_of_mul_le_mul_left h2 heA
  have hrestrict : ∑ k in Finset.range (tpl * numIters), F k = ∑ k in Finset.range D, F k := by
    refine (Finset.sum_subset (Finset.range_subset.mpr hDle) fun x _ hx => ?_).symm
    have hxD : D ≤ x := by
      by_contra hc
      exact hx (Finset.mem_range.mpr (by omega))
    rw [hF]
    simp only []
    rw [if_neg]
    have : eA * D ≤ eA * x := Nat.mul_le_mul_left _ hxD
    omega
  rw [hrestrict]
  have hopen : ∑ k in Finset.range D, F k
      = ∑ k in Finset.range D, ∑ i in Finset.range eA, g (k * eA + i) := by
    refine Finset.sum_congr rfl fun k hk => ?_
    have hkD : k < D := Finset.mem_range.mp hk
    rw [hF]
    simp only []
    rw [if_pos (by calc eA * k < eA * D := mul_lt_mul_of_pos_left hkD heA
                   _ = p.headDimValue := hD.symm)]
    exact Finset.sum_congr rfl fun i _ => by rw [Nat.mul_comm k eA]
  rw [hopen, ← sum_range_mul g eA D, ← hD]

/-- C7 witness: with `eA = 1` on the concrete one-column problem, the stored
delta equals the single product, 1. -/
theorem compute_delta_row_sum_witness :
    0 < 1 ∧ (1 : ℕ) ∣ dimsW.headDimValue ∧
      dimsW.headDimValue ≤ 1 * kNumThreadsPerLine cfgW * deltaMaxIters cfgW 1 ∧
      (0 : ℕ) + 0 < dimsW.numQueries ∧
      deltaRowValue cfgW dimsW envW 1 0 0
        = ∑ cIdx in Finset.range dimsW.headDimValue,
            envW.output (0 + 0) cIdx * envW.gradOutput (0 + 0) cIdx :=
  ⟨by decide, by decide, by decide, by decide,
    compute_delta_row_sum cfgW dimsW envW 1 0 0 (by decide) (by decide) (by decide) (by decide)⟩

lemma nQblock_lt (c : Config) (p : Dims) (qs n : ℕ) (hn : n < nQblock c p qs) :
    qs + n < p.numQueries := by
  have h2 : n < p.numQueries - qs := lt_of_lt_of_le hn (min_le_right _ _)
  omega

lemma nKblock_lt (c : Config) (p : Dims) (ks m : ℕ) (hm : m < nKblock c p ks) :
    ks + m < p.numKeys := by
  have h2 : m < p.numKeys - ks := lt_of_lt_of_le hm (min_le_right _ _)
  omega

section Noninterference

variable (e : ℚ → ℚ) (dr : Bool) (u : ℕ → ℚ) (o₀ : ℕ) (c : Config) (p : Dims)
variable (env₁ env₂ : Env) (b h qs ks : ℕ)

lemma probTile_congr
    (hQ : ∀ i k, i < p.numQueries → k < p.headDim → env₁.query i k = env₂.query i k)
    (hK : ∀ i k, i < p.numKeys → k < p.headDim → env₁.key i k = env₂.key i k)
    (hB : ∀ i j, i < p.numQueries → j < p.numKeys → env₁.bias i j = env₂.bias i j)
    (hL : ∀ i, i < p.numQueries → env₁.lse i = env₂.lse i)
    (m n : ℕ) (hn : n < nQblock c p qs) :
    probTile e c p env₁ qs ks m n = probTile e c p env₂ qs ks m n := by
  have hqk : qkWithBias c p env₁ qs ks m n = qkWithBias c p env₂ qs ks m n := by
    unfold qkWithBias qkScaled qkRaw
    congr 1
    · congr 1
      by_cases hb : m < nKblock c p ks ∧ n < nQblock c p qs
      · rw [if_pos hb, if_pos hb]
        refine Finset.sum_congr rfl fun k hk => ?_
        rw [hK _ _ (nKblock_lt c p ks m hb.1) (Finset.mem_range.mp hk),
          hQ _ _ (nQblock_lt c p qs n hn) (Finset.mem_range.mp hk)]
      · rw [if_neg hb, if_neg hb]
    · by_cases hb2 : (p.useBias : Prop) ∧ (n < nQblock c p qs ∧ m < nKblock c p ks)
      · rw [if_pos hb2, if_pos hb2,
          hB _ _ (nQblock_lt c p qs n hn) (nKblock_lt c p ks m hb2.2.2)]
      · rw [if_neg hb2, if_neg hb2]
  unfold probTile causalMasked
  rw [hqk, hL _ (nQblock_lt c p qs n hn)]

lemma dPTile_congr
    (hV : ∀ i k, i < p.numKeys → k < p.headDimValue → env₁.value i k = env₂.value i k)
    (hdO : ∀ i k, i < p.numQueries → k < p.headDimValue →
      env₁.gradOutput i k = env₂.gradOutput i k)
    (q k : ℕ) (hq : q < nQblock c p qs) (hk : k < nKblock c p ks) :
    dPTile p env₁ qs ks q k = dPTile p env₂ qs ks q k := by
  unfold dPTile
  refine Finset.sum_congr rfl fun cIdx hc => ?_
  rw [hdO _ _ (nQblock_lt c p qs q hq) (Finset.mem_range.mp hc),
    hV _ _ (nKblock_lt c p ks k hk) (Finset.mem_range.mp hc)]

lemma dSTile_congr
    (hQ : ∀ i k, i < p.numQueries → k < p.headDim → env₁.query i k = env₂.query i k)
    (hK : ∀ i k, i < p.numKeys → k < p.headDim → env₁.key i k = env₂.key i k)
    (hV : ∀ i k, i < p.numKeys → k < p.headDimValue → env₁.value i k = env₂.value i k)
    (hB : ∀ i j, i < p.numQueries → j < p.numKeys → env₁.bias i j = env₂.bias i j)
    (hdO : ∀ i k, i < p.numQueries → k < p.headDimValue →
      env₁.gradOutput i k = env₂.gradOutput i k)
    (hL : ∀ i, i < p.numQueries → env₁.lse i = env₂.lse i)
    (hD : ∀ i, i < p.numQueries → env₁.delta i = env₂.delta i)
    (q k : ℕ) (hq : q < nQblock c p qs) (hk : k < nKblock c p ks) :
    dSTile e dr u o₀ c p env₁ b h qs ks q k = dSTile e dr u o₀ c p env₂ b h qs ks q k := by
  have h1 : dPDropped dr u o₀ c p env₁ b h qs ks q k
      = dPDropped dr u o₀ c p env₂ b h qs ks q k := by
    unfold dPDropped
    rw [dPTile_congr c p env₁ env₂ qs ks hV hdO q k hq hk]
  have h2 : diLoad p env₁ qs q = diLoad p env₂ qs q := by
    unfold diLoad
    by_cases hb : qs + q < p.numQueries
    · rw [if_pos hb, if_pos hb, hD _ hb]
    · rw [if_neg hb, if_neg hb]
  have h3 : attnTRead e c p env₁ qs ks q k = attnTRead e c p env₂ qs ks q k := by
    unfold attnTRead
    rw [if_pos ⟨hq, hk⟩, if_pos ⟨hq, hk⟩,
      probTile_congr e c p env₁ env₂ qs ks hQ hK hB hL k q hq]
  unfold dSTile
  rw [h1, h2, h3]

/-- C10 (implicit): on the bounds-checked path the tile's logical extent is
clamped to the rows/columns remaining in the problem; the QK matmul zeroes
every contribution outside the clamped extent; out-of-range query rows read
a row-delta of exactly 0; and, consequently, every tile output the iteration
produces — probability tile, dV/dQ/dK contributions and the bias-gradient
tile — is unchanged if all data past the declared problem dimensions is
replaced arbitrarily. -/
theorem out_of_bounds_noninterference
    (hQ : ∀ i k, i < p.numQueries → k < p.headDim → env₁.query i k = env₂.query i k)
    (hK : ∀ i k, i < p.numKeys → k < p.headDim → env₁.key i k = env₂.key i k)
    (hV : ∀ i k, i < p.numKeys → k < p.headDimValue → env₁.value i k = env₂.value i k)
    (hB : ∀ i j, i < p.numQueries → j < p.numKeys → env₁.bias i j = env₂.bias i j)
    (hdO : ∀ i k, i < p.numQueries → k < p.headDimValue →
      env₁.gradOutput i k = env₂.gradOutput i k)
    (hL : ∀ i, i < p.numQueries → env₁.lse i = env₂.lse i)
    (hD : ∀ i, i < p.numQueries → env₁.delta i = env₂.delta i) :
    nQblock c p qs ≤ p.numQueries - qs
    ∧ nKblock c p ks ≤ p.numKeys - ks
    ∧ (∀ m n, ¬(m < nKblock c p ks ∧ n < nQblock c p qs) →
        qkRaw c p env₁ qs ks m n = 0)
    ∧ (∀ q, p.numQueries ≤ qs + q → diLoad p env₁ qs q = 0)
    ∧ (∀ m n, n < nQblock c p qs →
        probTile e c p env₁ qs ks m n = probTile e c p env₂ qs ks m n)
    ∧ (∀ j cIdx, cIdx < p.headDimValue →
        dVcontrib e dr u o₀ c p env₁ b h qs ks j cIdx
          = dVcontrib e dr u o₀ c p env₂ b h qs ks j cIdx)
    ∧ (∀ q k, q < nQblock c p qs → k < nKblock c p ks →
        gradBiasTile e dr u o₀ c p env₁ b h qs ks q k
          = gradBiasTile e dr u o₀ c p env₂ b h qs ks q k)
    ∧ (∀ q cIdx, q < nQblock c p qs → cIdx < p.headDim →
        dQcontrib e dr u o₀ c p env₁ b h qs ks q cIdx
          = dQcontrib e dr u o₀ c p env₂ b h qs ks q cIdx)
    ∧ (∀ k cIdx, k < nKblock c p ks → cIdx < p.headDim →
        dKcontrib e dr u o₀ c p env₁ b h qs ks k cIdx
          = dKcontrib e dr u o₀ c p env₂ b h qs ks k cIdx) := by
  refine ⟨min_le_right _ _, min_le_right _ _, ?_, ?_, ?_, ?_, ?_, ?_, ?_⟩
  · intro m n hout
    unfold qkRaw
    rw [if_neg hout]
  · intro q hle
    unfold diLoad
    rw [if_neg (by omega)]
  · intro m n hn
    exact probTile_congr e c p env₁ env₂ qs ks hQ hK hB hL m n hn
  · intro j cIdx hc
    unfold dVcontrib
    refine Finset.sum_congr rfl fun i hi => ?_
    have hi2 : i < nQblock c p qs := Finset.mem_range.mp hi
    unfold dVterm
    rw [probTile_congr e c p env₁ env₂ qs ks hQ hK hB hL j i hi2,
      hdO _ _ (nQblock_lt c p qs i hi2) hc]
  · intro q k hq hk
    unfold gradBiasTile
    exact dSTile_congr e dr u o₀ c p env₁ env₂ b h qs ks hQ hK hV hB hdO hL hD q k hq hk
  · intro q cIdx hq hc
    unfold dQcontrib
    refine Finset.sum_congr rfl fun k hk => ?_
    have hk2 : k < nKblock c p ks := Finset.mem_range.mp hk
    unfold dQterm dSScaled
    rw [dSTile_congr e dr u o₀ c p env₁ env₂ b h qs ks hQ hK hV hB hdO hL hD q k hq hk2,
      hK _ _ (nKblock_lt c p ks k hk2) hc]
  · intro k cIdx hk hc
    unfold dKcontrib
    refine Finset.sum_congr rfl fun q hq => ?_
    have hq2 : q < nQblock c p qs := Finset.mem_range.mp hq
    unfold dKterm dSScaled
    rw [dSTile_congr e dr u o₀ c p env₁ env₂ b h qs ks hQ hK hV hB hdO hL hD q k hq2 hk,
      hQ _ _ (nQblock_lt c p qs q hq2) hc]

end Noninterference

/-- C10 witness: `envW2` agrees with `envW` on every in-range index of the
one-element problem but holds garbage past the declared dimensions; the dV
contribution is nevertheless identical. -/
theorem out_of_bounds_noninterference_witness :
    (0 : ℕ) < dimsW.headDimValue ∧
      dVcontrib eW false uW 0 cfgW dimsW envW 0 0 0 0 0 0
        = dVcontrib eW false uW 0 cfgW dimsW envW2 0 0 0 0 0 0 :=
  ⟨by decide,
    (out_of_bounds_noninterference eW false uW 0 cfgW dimsW envW envW2 0 0 0 0
      (fun i k hi hk => by
        have hi2 : i = 0 := by have h2 : i < 1 := hi; omega
        have hk2 : k = 0 := by have h2 : k < 1 := hk; omega
        subst hi2; subst hk2; rfl)
      (fun i k hi hk => by
        have hi2 : i = 0 := by have h2 : i < 1 := hi; omega
        have hk2 : k = 0 := by have h2 : k < 1 := hk; omega
        subst hi2; subst hk2; rfl)
      (fun i k hi hk => by
        have hi2 : i = 0 := by have h2 : i < 1 := hi; omega
        have hk2 : k = 0 := by have h2 : k < 1 := hk; omega
        subst hi2; subst hk2; rfl)
      (fun i j hi hj => by
        have hi2 : i = 0 := by have h2 : i < 1 := hi; omega
        have hj2 : j = 0 := by have h2 : j < 1 := hj; omega
        subst hi2; subst hj2; rfl)
      (fun i k hi hk => by
        have hi2 : i = 0 := by have h2 : i < 1 := hi; omega
        have hk2 : k = 0 := by have h2 : k < 1 := hk; omega
        subst hi2; subst hk2; rfl)
      (fun i hi => by
        have hi2 : i = 0 := by have h2 : i < 1 := hi; omega
        subst hi2; rfl)
      (fun i hi => by
        have hi2 : i = 0 := by have h2 : i < 1 := hi; omega
        subst hi2; rfl)).2.2.2.2.2.1 0 0 (by decide)⟩

end XFormersFmha
